import Mathlib

/-!
Shallow embedding of `ReluConstraint` (src/src/engine/ReluConstraint.cpp),
the ReLU piecewise-linear constraint of the Marabou verification engine,
together with proofs about its phase state machine, bound propagation,
satisfaction check, fix proposal, case-split enumeration, serialization
and state restoration.

Doubles are modelled as exact rationals.  The `FloatUtils` comparison
helpers called with the default epsilon are modelled as the exact
comparisons they implement over exact arithmetic
(`FloatUtils::isPositive x` ↦ `0 < x`, `FloatUtils::isNegative x` ↦
`x < 0`, `FloatUtils::isZero x` ↦ `x = 0`, `FloatUtils::gt x y` ↦
`y < x`, `FloatUtils::areEqual x y` ↦ `x = y`); the comparison tolerance
that `satisfied()` passes explicitly
(`GlobalConfiguration::CONSTRAINT_COMPARISON_TOLERANCE`) is kept as a
parameter, with `FloatUtils::areEqual x y tol` ↦ `|x - y| ≤ tol`.
-/

/-- Phase of a ReLU constraint: `PHASE_NOT_FIXED` initially,
`RELU_PHASE_ACTIVE` (output equals input) or `RELU_PHASE_INACTIVE`
(output is zero) once fixed. -/
inductive PhaseStatus where
  | PHASE_NOT_FIXED
  | RELU_PHASE_ACTIVE
  | RELU_PHASE_INACTIVE
deriving DecidableEq

open PhaseStatus

/-- Kind of a bound: `Tightening::LB` or `Tightening::UB`. -/
inductive BoundKind where
  | LB
  | UB
deriving DecidableEq

/-- A proposed bound update `Tightening( variable, value, type )`. -/
structure Tightening where
  var : ℕ
  value : ℚ
  kind : BoundKind
deriving DecidableEq

/-- Relation kind of an `Equation` (only `EQ` is used by ReLU splits). -/
inductive EquationType where
  | EQ
  | GE
  | LE
deriving DecidableEq

/-- A linear `Equation`: an ordered list of (coefficient, variable)
addends and a scalar. -/
structure Equation where
  ty : EquationType
  addends : List (ℚ × ℕ)
  scalar : ℚ
deriving DecidableEq

/-- `Equation( type )`: a fresh equation with no addends and zero scalar. -/
def emptyEquation (ty : EquationType) : Equation :=
  { ty := ty, addends := [], scalar := 0 }

/-- `Equation::addAddend( coefficient, variable )`. -/
def Equation.addAddend (e : Equation) (coeff : ℚ) (v : ℕ) : Equation :=
  { e with addends := e.addends ++ [(coeff, v)] }

/-- `Equation::setScalar( scalar )`. -/
def Equation.setScalar (e : Equation) (s : ℚ) : Equation :=
  { e with scalar := s }

/-- A `PiecewiseLinearCaseSplit`: bound tightenings plus equations,
in the order they were stored. -/
structure PiecewiseLinearCaseSplit where
  bounds : List Tightening
  equations : List Equation
deriving DecidableEq

/-- A freshly constructed case split. -/
def PiecewiseLinearCaseSplit.empty : PiecewiseLinearCaseSplit :=
  { bounds := [], equations := [] }

/-- `PiecewiseLinearCaseSplit::storeBoundTightening`. -/
def PiecewiseLinearCaseSplit.storeBoundTightening (s : PiecewiseLinearCaseSplit)
    (t : Tightening) : PiecewiseLinearCaseSplit :=
  { s with bounds := s.bounds ++ [t] }

/-- `PiecewiseLinearCaseSplit::addEquation`. -/
def PiecewiseLinearCaseSplit.addEquation (s : PiecewiseLinearCaseSplit)
    (e : Equation) : PiecewiseLinearCaseSplit :=
  { s with equations := s.equations ++ [e] }

/-- The `MarabouError` codes thrown by the ReLU constraint code. -/
inductive MarabouError where
  | PARTICIPATING_VARIABLE_MISSING_ASSIGNMENT
  | REQUESTED_CASE_SPLITS_FROM_FIXED_CONSTRAINT
  | REQUESTED_NONEXISTENT_CASE_SPLIT
deriving DecidableEq

/-- The distinguished recoverable infeasibility signal
(`InfeasibleQueryException`). -/
inductive InfeasibleQueryException where
  | thrown
deriving DecidableEq

/-- A proposed repair `PiecewiseLinearConstraint::Fix( variable, value )`. -/
structure PiecewiseLinearConstraint.Fix where
  var : ℕ
  value : ℚ
deriving DecidableEq

/-- One call the constraint makes on its bound-manager collaborator
during propagation: a lower/upper tightening (the `withRow` flag records
whether the overload taking the justification `TighteningRow` was
called), or `addLemmaExplanationAndTightenBound` with the affected
variable, value and kind, and the causing variable and its bound kind. -/
inductive BMAction where
  | tightenLB (v : ℕ) (value : ℚ) (withRow : Bool)
  | tightenUB (v : ℕ) (value : ℚ) (withRow : Bool)
  | lemmaBound (v : ℕ) (value : ℚ) (kind : BoundKind) (cause : ℕ) (causeKind : BoundKind)
deriving DecidableEq

/-- The answer of `ITableau::areLinearlyDependent( b, f, bDeltaToFDelta,
fDeltaToBDelta )` together with `isBasic` for `b` and `f`. -/
structure TableauDependency where
  linearlyDependent : Bool
  bDeltaToFDelta : ℚ
  fDeltaToBDelta : ℚ
  bIsBasic : Bool
  fIsBasic : Bool
deriving DecidableEq

/-- State of a `ReluConstraint`: the variables `_b`, `_f`, the optional
slack `_aux` with its `_auxVarInUse` flag, the tri-state `_phaseStatus`,
the `_direction` hint, the `_constraintActive` flag, the
`_haveEliminatedVariables` flag, the `_score`, the locally cached
`_lowerBounds` / `_upperBounds`, the current variable assignment,
`_tableauAuxVars`, and the three backtracking-context handles
(`_cdConstraintActive`, `_cdPhaseStatus`, `_cdInfeasibleCases`,
modelled as opaque identifiers of the context-dependent objects). -/
structure ReluConstraint where
  b : ℕ
  f : ℕ
  aux : ℕ
  auxVarInUse : Bool
  phaseStatus : PhaseStatus
  direction : PhaseStatus
  constraintActive : Bool
  haveEliminatedVariables : Bool
  score : ℚ
  lowerBounds : ℕ → Option ℚ
  upperBounds : ℕ → Option ℚ
  assignment : ℕ → Option ℚ
  tableauAuxVars : List ℕ
  cdConstraintActive : ℕ
  cdPhaseStatus : ℕ
  cdInfeasibleCases : ℕ

namespace ReluConstraint

/-- A well-formed constraint has pairwise distinct participating
variables (`b ≠ f`, and `aux` distinct from both when in use). -/
def wellFormed (c : ReluConstraint) : Prop :=
  c.b ≠ c.f ∧ (c.auxVarInUse = true → c.aux ≠ c.b ∧ c.aux ≠ c.f)

instance (c : ReluConstraint) : Decidable c.wellFormed := by
  unfold wellFormed; infer_instance

/-- `setPhaseStatus`. -/
def setPhaseStatus (c : ReluConstraint) (p : PhaseStatus) : ReluConstraint :=
  { c with phaseStatus := p }

/-- `phaseFixed()`: the phase has left `PHASE_NOT_FIXED`. -/
def phaseFixed (c : ReluConstraint) : Bool :=
  c.phaseStatus ≠ PHASE_NOT_FIXED

/-- `checkIfLowerBoundUpdateFixesPhase( variable, bound )`:
`f` with a positive lower bound, or `b` with a non-negative lower
bound, fixes the phase Active; `aux` (when in use) with a positive
lower bound fixes it Inactive. -/
def checkIfLowerBoundUpdateFixesPhase (c : ReluConstraint) (v : ℕ) (bound : ℚ) :
    ReluConstraint :=
  if v = c.f ∧ 0 < bound then c.setPhaseStatus RELU_PHASE_ACTIVE
  else if v = c.b ∧ ¬ bound < 0 then c.setPhaseStatus RELU_PHASE_ACTIVE
  else if c.auxVarInUse = true ∧ v = c.aux ∧ 0 < bound then
    c.setPhaseStatus RELU_PHASE_INACTIVE
  else c

/-- `checkIfUpperBoundUpdateFixesPhase( variable, bound )`:
`f` or `b` with a non-positive upper bound fixes the phase Inactive;
`aux` (when in use) with a zero upper bound fixes it Active (the two
tests are separate `if` statements in the source; `setPhaseStatus`
leaves every other field unchanged, so the second test can read the
fields of `c` directly). -/
def checkIfUpperBoundUpdateFixesPhase (c : ReluConstraint) (v : ℕ) (bound : ℚ) :
    ReluConstraint :=
  let c1 :=
    if (v = c.f ∨ v = c.b) ∧ ¬ 0 < bound then c.setPhaseStatus RELU_PHASE_INACTIVE
    else c
  if c.auxVarInUse = true ∧ v = c.aux ∧ bound = 0 then
    c1.setPhaseStatus RELU_PHASE_ACTIVE
  else c1

/-- `setLowerBound` on the local bound cache. -/
def setLowerBound (c : ReluConstraint) (v : ℕ) (q : ℚ) : ReluConstraint :=
  { c with lowerBounds := fun x => if x = v then some q else c.lowerBounds x }

/-- `setUpperBound` on the local bound cache. -/
def setUpperBound (c : ReluConstraint) (v : ℕ) (q : ℚ) : ReluConstraint :=
  { c with upperBounds := fun x => if x = v then some q else c.upperBounds x }

/-- `notifyLowerBound( variable, newBound )`, standalone mode
(`_boundManager == nullptr`): ignore the notification unless the new
bound is strictly tighter than the cached one, otherwise store it and
run the phase-fixation check. -/
def notifyLowerBound (c : ReluConstraint) (v : ℕ) (newBound : ℚ) : ReluConstraint :=
  match c.lowerBounds v with
  | some lb =>
    if ¬ lb < newBound then c
    else (c.setLowerBound v newBound).checkIfLowerBoundUpdateFixesPhase v newBound
  | none => (c.setLowerBound v newBound).checkIfLowerBoundUpdateFixesPhase v newBound

/-- `notifyUpperBound( variable, newBound )`, standalone mode
(`_boundManager == nullptr`). -/
def notifyUpperBound (c : ReluConstraint) (v : ℕ) (newBound : ℚ) : ReluConstraint :=
  match c.upperBounds v with
  | some ub =>
    if ¬ newBound < ub then c
    else (c.setUpperBound v newBound).checkIfUpperBoundUpdateFixesPhase v newBound
  | none => (c.setUpperBound v newBound).checkIfUpperBoundUpdateFixesPhase v newBound

/-- `notifyUpperBound( variable, ... )`, bound-manager mode: `bound` is
the value `getUpperBound( variable )` returns after the bound manager
has absorbed the notification.  Returns the updated constraint and the
ordered list of calls made on the bound manager, or the
`InfeasibleQueryException` signal.  The `createTighteningRow()` call
only builds the justification row and makes no bound-manager call, so
it is not reflected in the action list. -/
def notifyUpperBoundBM (c : ReluConstraint) (proofs : Bool) (v : ℕ) (bound : ℚ) :
    Except InfeasibleQueryException (ReluConstraint × List BMAction) :=
  if c.phaseFixed = true then .ok (c, [])
  else
    let c1 := c.checkIfUpperBoundUpdateFixesPhase v bound
    if c1.constraintActive = false then .ok (c1, [])
    else if v = c.f then
      if proofs = true then
        if c1.phaseStatus ≠ RELU_PHASE_INACTIVE then
          .ok (c1, [.tightenUB c.b bound true])
        else if bound = 0 then
          .ok (c1, [.lemmaBound c.b 0 BoundKind.UB v BoundKind.UB])
        else if bound < 0 then .error .thrown
        else .ok (c1, [])
      else .ok (c1, [.tightenUB c.b bound false])
    else if v = c.b then
      if ¬ 0 < bound then
        .ok (c1,
          [if proofs = true then BMAction.lemmaBound c.f 0 BoundKind.UB v BoundKind.UB
           else BMAction.tightenUB c.f 0 false] ++
          (if c.auxVarInUse = true then [BMAction.tightenLB c.aux (-bound) true] else []))
      else
        if proofs = true then
          if c1.phaseStatus = RELU_PHASE_ACTIVE then .ok (c1, [.tightenUB c.f bound true])
          else if c1.phaseStatus = PHASE_NOT_FIXED then
            .ok (c1, [.lemmaBound c.f bound BoundKind.UB v BoundKind.UB])
          else .ok (c1, [])
        else .ok (c1, [.tightenUB c.f bound false])
    else if c.auxVarInUse = true ∧ v = c.aux then
      if proofs = true then
        if c1.phaseStatus ≠ RELU_PHASE_ACTIVE then
          .ok (c1, [.tightenLB c.b (-bound) true])
        else if bound = 0 then
          .ok (c1, [.lemmaBound c.b 0 BoundKind.LB v BoundKind.UB])
        else if bound < 0 then .error .thrown
        else .ok (c1, [])
      else .ok (c1, [.tightenLB c.b (-bound) false])
    else .ok (c1, [])

/-- `satisfied()`: needs concrete assignments for `b` and `f`;
false on a negative `f`; `b = f` within the comparison tolerance on a
positive `f`; `b` non-positive on a zero `f`. -/
def satisfied (c : ReluConstraint) (tol : ℚ) : Except MarabouError Bool :=
  match c.assignment c.b, c.assignment c.f with
  | some bValue, some fValue =>
    if fValue < 0 then .ok false
    else if 0 < fValue then .ok (decide (|bValue - fValue| ≤ tol))
    else .ok (decide (¬ 0 < bValue))
  | _, _ => .error .PARTICIPATING_VARIABLE_MISSING_ASSIGNMENT

/-- `getPossibleFixes()` on the current assignment values of `b` and
`f` (the source asserts both assignments exist and the constraint is
unsatisfied). -/
def getPossibleFixes (c : ReluConstraint) (bValue fValue : ℚ) :
    List PiecewiseLinearConstraint.Fix :=
  if 0 < fValue then
    if 0 < bValue then [⟨c.b, fValue⟩, ⟨c.f, bValue⟩]
    else if c.direction = RELU_PHASE_INACTIVE then [⟨c.f, 0⟩, ⟨c.b, fValue⟩]
    else [⟨c.b, fValue⟩, ⟨c.f, 0⟩]
  else
    if c.direction = RELU_PHASE_ACTIVE then [⟨c.f, bValue⟩, ⟨c.b, 0⟩]
    else [⟨c.b, 0⟩, ⟨c.f, bValue⟩]

/-- `getSmartFixes( tableau )` on the current assignment values of `b`
and `f`, with the tableau's dependency answer passed explicitly.
Independent variables fall back to `getPossibleFixes`; otherwise the
active repair (make `b = f`) is computed through the linear coefficient
and skipped when the coefficient is exactly 1, and the inactive repair
(make `f = 0`) is emitted only when the resulting `b` value is
non-positive. -/
def getSmartFixes (c : ReluConstraint) (bValue fValue : ℚ) (t : TableauDependency) :
    List PiecewiseLinearConstraint.Fix :=
  if t.linearlyDependent = false then c.getPossibleFixes bValue fValue
  else
    (if t.bIsBasic = false then
       if ¬ t.bDeltaToFDelta = 1 then
         [⟨c.b, bValue + (bValue - fValue) / (t.bDeltaToFDelta - 1)⟩]
       else []
     else
       if ¬ t.fDeltaToBDelta = 1 then
         [⟨c.f, fValue + (fValue - bValue) / (t.fDeltaToBDelta - 1)⟩]
       else []) ++
    (if t.fIsBasic = false then
       if bValue + t.fDeltaToBDelta * (-fValue) ≤ 0 then [⟨c.f, 0⟩] else []
     else
       if bValue + fValue / (-t.bDeltaToFDelta) ≤ 0 then
         [⟨c.b, bValue + fValue / (-t.bDeltaToFDelta)⟩]
       else [])

/-- Semantics of applying a smart fix: the fix targets the non-basic
variable of the pair, and the basic one moves through the tableau
coefficient (`bDeltaToFDelta` per unit of `b`, `fDeltaToBDelta` per
unit of `f`).  Returns the pair (new `b` value, new `f` value). -/
def applySmartFix (c : ReluConstraint) (bValue fValue : ℚ) (t : TableauDependency)
    (fix : PiecewiseLinearConstraint.Fix) : ℚ × ℚ :=
  if fix.var = c.b then (fix.value, fValue + t.bDeltaToFDelta * (fix.value - bValue))
  else (bValue + t.fDeltaToBDelta * (fix.value - fValue), fix.value)

/-- `getInactiveSplit()`: `b ≤ 0`, `f ≤ 0`. -/
def getInactiveSplit (c : ReluConstraint) : PiecewiseLinearCaseSplit :=
  (PiecewiseLinearCaseSplit.empty.storeBoundTightening ⟨c.b, 0, BoundKind.UB⟩).storeBoundTightening
    ⟨c.f, 0, BoundKind.UB⟩

/-- `getActiveSplit()`: `b ≥ 0`, plus `aux ≤ 0` when the aux variable
is in use, else the equation `b - f = 0`. -/
def getActiveSplit (c : ReluConstraint) : PiecewiseLinearCaseSplit :=
  let activePhase := PiecewiseLinearCaseSplit.empty.storeBoundTightening ⟨c.b, 0, BoundKind.LB⟩
  if c.auxVarInUse = true then
    activePhase.storeBoundTightening ⟨c.aux, 0, BoundKind.UB⟩
  else
    activePhase.addEquation ((((emptyEquation EquationType.EQ).addAddend 1 c.b).addAddend
      (-1) c.f).setScalar 0)

/-- `getCaseSplits()`: usage error when the phase is fixed; otherwise
both splits, ordered by direction hint, then by the sign of the current
`f` assignment, then Inactive first. -/
def getCaseSplits (c : ReluConstraint) :
    Except MarabouError (List PiecewiseLinearCaseSplit) :=
  if c.phaseStatus ≠ PHASE_NOT_FIXED then
    .error .REQUESTED_CASE_SPLITS_FROM_FIXED_CONSTRAINT
  else if c.direction = RELU_PHASE_INACTIVE then .ok [c.getInactiveSplit, c.getActiveSplit]
  else if c.direction = RELU_PHASE_ACTIVE then .ok [c.getActiveSplit, c.getInactiveSplit]
  else
    match c.assignment c.f with
    | some fValue =>
      if 0 < fValue then .ok [c.getActiveSplit, c.getInactiveSplit]
      else .ok [c.getInactiveSplit, c.getActiveSplit]
    | none => .ok [c.getInactiveSplit, c.getActiveSplit]

/-- `getAllCases()`: the two phases, same ordering rules as
`getCaseSplits` (the source performs no fixed-phase check here). -/
def getAllCases (c : ReluConstraint) : List PhaseStatus :=
  if c.direction = RELU_PHASE_INACTIVE then [RELU_PHASE_INACTIVE, RELU_PHASE_ACTIVE]
  else if c.direction = RELU_PHASE_ACTIVE then [RELU_PHASE_ACTIVE, RELU_PHASE_INACTIVE]
  else
    match c.assignment c.f with
    | some fValue =>
      if 0 < fValue then [RELU_PHASE_ACTIVE, RELU_PHASE_INACTIVE]
      else [RELU_PHASE_INACTIVE, RELU_PHASE_ACTIVE]
    | none => [RELU_PHASE_INACTIVE, RELU_PHASE_ACTIVE]

/-- `getCaseSplit( phase )`: the split of the requested phase, or the
nonexistent-case-split usage error. -/
def getCaseSplit (c : ReluConstraint) (phase : PhaseStatus) :
    Except MarabouError PiecewiseLinearCaseSplit :=
  if phase = RELU_PHASE_INACTIVE then .ok c.getInactiveSplit
  else if phase = RELU_PHASE_ACTIVE then .ok c.getActiveSplit
  else .error .REQUESTED_NONEXISTENT_CASE_SPLIT

/-- `restoreState( state )`: save the three context-dependent handles,
copy-assign the whole snapshot, restore the handles. -/
def restoreState (c state : ReluConstraint) : ReluConstraint :=
  { state with
    cdConstraintActive := c.cdConstraintActive
    cdPhaseStatus := c.cdPhaseStatus
    cdInfeasibleCases := c.cdInfeasibleCases }

end ReluConstraint

/-- The decimal rendering of an unsigned value by `Stringf( "%u", n )`:
most-significant digit first. -/
def natToChars (n : ℕ) : List Char :=
  if n = 0 then ['0']
  else (Nat.digits 10 n).reverse.map fun d => Char.ofNat (48 + d)

/-- `atoi` on a token of decimal digits. -/
def atoi (s : List Char) : ℕ :=
  s.foldl (fun acc ch => acc * 10 + (ch.toNat - 48)) 0

/-- `String::tokenize( "," )` as used by the parsing constructor:
split the character list at every comma. -/
def tokenize : List Char → List (List Char)
  | [] => [[]]
  | ch :: rest =>
    if ch = ',' then [] :: tokenize rest
    else
      match tokenize rest with
      | [] => [[ch]]
      | t :: ts => (ch :: t) :: ts

/-- `ReluConstraint::serializeToString()`: `relu,<f>,<b>` or
`relu,<f>,<b>,<aux>`. -/
def ReluConstraint.serializeToString (c : ReluConstraint) : List Char :=
  if c.auxVarInUse = true then
    ['r', 'e', 'l', 'u', ','] ++ natToChars c.f ++ [','] ++ natToChars c.b ++ [','] ++
      natToChars c.aux
  else
    ['r', 'e', 'l', 'u', ','] ++ natToChars c.f ++ [','] ++ natToChars c.b

/-- `ReluConstraint( const String &serializedRelu )`: check the `relu`
tag (the first four characters), drop the tag and the separator,
tokenize at commas, and read `f`, `b` and optionally `aux`.  Returns
`(f, b, aux?)`, where the aux component records the aux-presence flag;
`none` when an assertion of the constructor fails. -/
def parseRelu (s : List Char) : Option (ℕ × ℕ × Option ℕ) :=
  if s.take 4 = ['r', 'e', 'l', 'u'] then
    match tokenize (s.drop 5) with
    | [fs, bs] => some (atoi fs, atoi bs, none)
    | [fs, bs, auxs] => some (atoi fs, atoi bs, some (atoi auxs))
    | _ => none
  else none

/-- Spec-side definition of the case ordering, written from the spec's
words: explicit direction hint first; else, when `f` has an assignment,
the phase matching the sign of the current `f` assignment first (Active
when `f > 0`, else Inactive); else Inactive before Active. -/
def specSplitOrder (c : ReluConstraint) : List PhaseStatus :=
  if c.direction = RELU_PHASE_ACTIVE then [RELU_PHASE_ACTIVE, RELU_PHASE_INACTIVE]
  else if c.direction = RELU_PHASE_INACTIVE then [RELU_PHASE_INACTIVE, RELU_PHASE_ACTIVE]
  else
    match c.assignment c.f with
    | some fValue =>
      if 0 < fValue then [RELU_PHASE_ACTIVE, RELU_PHASE_INACTIVE]
      else [RELU_PHASE_INACTIVE, RELU_PHASE_ACTIVE]
    | none => [RELU_PHASE_INACTIVE, RELU_PHASE_ACTIVE]

/-- A concrete standalone-mode constraint (`b = 0`, `f = 1`, `aux = 2`
in use, phase not fixed, no cached bounds, no assignment). -/
def reluExample : ReluConstraint :=
  ⟨0, 1, 2, true, PHASE_NOT_FIXED, PHASE_NOT_FIXED, true, false, 0,
    fun _ => none, fun _ => none, fun _ => none, [], 0, 0, 0⟩

/-- Normal form of the phase after `checkIfLowerBoundUpdateFixesPhase`. -/
theorem lower_check_phase (c : ReluConstraint) (v : ℕ) (q : ℚ) :
    (c.checkIfLowerBoundUpdateFixesPhase v q).phaseStatus =
      (if v = c.f ∧ 0 < q then RELU_PHASE_ACTIVE
       else if v = c.b ∧ ¬ q < 0 then RELU_PHASE_ACTIVE
       else if c.auxVarInUse = true ∧ v = c.aux ∧ 0 < q then RELU_PHASE_INACTIVE
       else c.phaseStatus) := by
  unfold ReluConstraint.checkIfLowerBoundUpdateFixesPhase ReluConstraint.setPhaseStatus
  split_ifs <;> rfl

/-- Normal form of the phase after `checkIfUpperBoundUpdateFixesPhase`
(the aux test runs second, so it wins when both tests fire). -/
theorem upper_check_phase (c : ReluConstraint) (v : ℕ) (q : ℚ) :
    (c.checkIfUpperBoundUpdateFixesPhase v q).phaseStatus =
      (if c.auxVarInUse = true ∧ v = c.aux ∧ q = 0 then RELU_PHASE_ACTIVE
       else if (v = c.f ∨ v = c.b) ∧ ¬ 0 < q then RELU_PHASE_INACTIVE
       else c.phaseStatus) := by
  unfold ReluConstraint.checkIfUpperBoundUpdateFixesPhase ReluConstraint.setPhaseStatus
  by_cases h1 : (v = c.f ∨ v = c.b) ∧ ¬ 0 < q <;>
    by_cases h2 : c.auxVarInUse = true ∧ v = c.aux ∧ q = 0 <;>
      simp only [h1, h2, if_true, if_false, ite_true, ite_false, if_pos, if_neg,
        not_false_iff] <;>
      simp [h1, h2]

/-- All fields of the constraint other than the phase are preserved by
`checkIfUpperBoundUpdateFixesPhase`. -/
theorem upper_check_frame (c : ReluConstraint) (v : ℕ) (q : ℚ) :
    (c.checkIfUpperBoundUpdateFixesPhase v q).b = c.b ∧
    (c.checkIfUpperBoundUpdateFixesPhase v q).f = c.f ∧
    (c.checkIfUpperBoundUpdateFixesPhase v q).aux = c.aux ∧
    (c.checkIfUpperBoundUpdateFixesPhase v q).auxVarInUse = c.auxVarInUse ∧
    (c.checkIfUpperBoundUpdateFixesPhase v q).constraintActive = c.constraintActive := by
  unfold ReluConstraint.checkIfUpperBoundUpdateFixesPhase ReluConstraint.setPhaseStatus
  split_ifs <;> exact ⟨rfl, rfl, rfl, rfl, rfl⟩

/-- C1: Phase fixation follows the transition table.  Starting from a
well-formed constraint whose phase is `PHASE_NOT_FIXED`, a lower-bound
check fixes the phase Active exactly when the bound is on `f` and
positive, or on `b` and non-negative, and fixes it Inactive exactly
when aux is in use and the bound is on `aux` and positive; an
upper-bound check fixes the phase Inactive exactly when the bound is on
`f` or `b` and non-positive, and Active exactly when aux is in use and
the bound is on `aux` and exactly zero; in every other case the phase
stays `PHASE_NOT_FIXED`. -/
theorem relu_phase_fixation_table (c : ReluConstraint) (v : ℕ) (q : ℚ)
    (hwf : c.wellFormed) (hnf : c.phaseStatus = PHASE_NOT_FIXED) :
    ((c.checkIfLowerBoundUpdateFixesPhase v q).phaseStatus = RELU_PHASE_ACTIVE ↔
      (v = c.f ∧ 0 < q) ∨ (v = c.b ∧ 0 ≤ q)) ∧
    ((c.checkIfLowerBoundUpdateFixesPhase v q).phaseStatus = RELU_PHASE_INACTIVE ↔
      c.auxVarInUse = true ∧ v = c.aux ∧ 0 < q) ∧
    ((c.checkIfUpperBoundUpdateFixesPhase v q).phaseStatus = RELU_PHASE_INACTIVE ↔
      (v = c.f ∨ v = c.b) ∧ q ≤ 0) ∧
    ((c.checkIfUpperBoundUpdateFixesPhase v q).phaseStatus = RELU_PHASE_ACTIVE ↔
      c.auxVarInUse = true ∧ v = c.aux ∧ q = 0) ∧
    (¬ ((v = c.f ∧ 0 < q) ∨ (v = c.b ∧ 0 ≤ q) ∨
        (c.auxVarInUse = true ∧ v = c.aux ∧ 0 < q)) →
      (c.checkIfLowerBoundUpdateFixesPhase v q).phaseStatus = PHASE_NOT_FIXED) ∧
    (¬ (((v = c.f ∨ v = c.b) ∧ q ≤ 0) ∨
        (c.auxVarInUse = true ∧ v = c.aux ∧ q = 0)) →
      (c.checkIfUpperBoundUpdateFixesPhase v q).phaseStatus = PHASE_NOT_FIXED) := by
  obtain ⟨hbf, haux⟩ := hwf
  rw [lower_check_phase, upper_check_phase, hnf]
  refine ⟨?_, ?_, ?_, ?_, ?_, ?_⟩
  · split_ifs with hA hB hC
    · exact iff_of_true rfl (Or.inl hA)
    · exact iff_of_true rfl (Or.inr ⟨hB.1, not_lt.mp hB.2⟩)
    · refine iff_of_false (by decide) ?_
      rintro (h | h)
      · exact hA h
      · exact hB ⟨h.1, not_lt.mpr h.2⟩
    · refine iff_of_false (by decide) ?_
      rintro (h | h)
      · exact hA h
      · exact hB ⟨h.1, not_lt.mpr h.2⟩
  · split_ifs with hA hB hC
    · refine iff_of_false (by decide) ?_
      rintro ⟨hu, hva, _⟩
      exact (haux hu).2 (hva.symm.trans hA.1)
    · refine iff_of_false (by decide) ?_
      rintro ⟨hu, hva, _⟩
      exact (haux hu).1 (hva.symm.trans hB.1)
    · exact iff_of_true rfl hC
    · exact iff_of_false (by decide) hC
  · split_ifs with hD hE
    · refine iff_of_false (by decide) ?_
      rintro ⟨hvfb, _⟩
      rcases hD with ⟨hu, hva, _⟩
      rcases hvfb with hvf | hvb
      · exact (haux hu).2 (hva.symm.trans hvf)
      · exact (haux hu).1 (hva.symm.trans hvb)
    · exact iff_of_true rfl ⟨hE.1, not_lt.mp hE.2⟩
    · refine iff_of_false (by decide) ?_
      rintro ⟨hvfb, hq⟩
      exact hE ⟨hvfb, not_lt.mpr hq⟩
  · split_ifs with hD hE
    · exact iff_of_true rfl hD
    · exact iff_of_false (by decide) hD
    · exact iff_of_false (by decide) hD
  · intro hno
    split_ifs with hA hB hC
    · exact absurd (Or.inl hA) hno
    · exact absurd (Or.inr (Or.inl ⟨hB.1, not_lt.mp hB.2⟩)) hno
    · exact absurd (Or.inr (Or.inr hC)) hno
    · rfl
  · intro hno
    split_ifs with hD hE
    · exact absurd (Or.inr hD) hno
    · exact absurd (Or.inl ⟨hE.1, not_lt.mp hE.2⟩) hno
    · rfl

/-- Witness for C1 at a concrete input: a lower bound of `1` on `f`
fixes the phase Active. -/
theorem relu_phase_fixation_table_witness :
    (reluExample.checkIfLowerBoundUpdateFixesPhase 1 1).phaseStatus =
      RELU_PHASE_ACTIVE :=
  ((relu_phase_fixation_table reluExample 1 1 (by decide) rfl).1).mpr
    (Or.inl ⟨rfl, by norm_num⟩)

/-- C10: `restoreState` copies every field of the snapshot into the
target except the three backtracking-context handles, which keep the
target's own pre-call values. -/
theorem relu_restore_state_frame (c state : ReluConstraint) :
    (c.restoreState state).b = state.b ∧
    (c.restoreState state).f = state.f ∧
    (c.restoreState state).aux = state.aux ∧
    (c.restoreState state).auxVarInUse = state.auxVarInUse ∧
    (c.restoreState state).phaseStatus = state.phaseStatus ∧
    (c.restoreState state).direction = state.direction ∧
    (c.restoreState state).constraintActive = state.constraintActive ∧
    (c.restoreState state).haveEliminatedVariables = state.haveEliminatedVariables ∧
    (c.restoreState state).score = state.score ∧
    (c.restoreState state).lowerBounds = state.lowerBounds ∧
    (c.restoreState state).upperBounds = state.upperBounds ∧
    (c.restoreState state).assignment = state.assignment ∧
    (c.restoreState state).tableauAuxVars = state.tableauAuxVars ∧
    (c.restoreState state).cdConstraintActive = c.cdConstraintActive ∧
    (c.restoreState state).cdPhaseStatus = c.cdPhaseStatus ∧
    (c.restoreState state).cdInfeasibleCases = c.cdInfeasibleCases :=
  ⟨rfl, rfl, rfl, rfl, rfl, rfl, rfl, rfl, rfl, rfl, rfl, rfl, rfl, rfl, rfl, rfl⟩

/-- C6: the Inactive split is the tightenings `b ≤ 0`, `f ≤ 0` with no
equation; the Active split is `b ≥ 0` plus `aux ≤ 0` and no equation
when the aux variable is in use, else `b ≥ 0` plus the single equation
`1·b + (-1)·f = 0`. -/
theorem relu_split_contents (c : ReluConstraint) :
    c.getInactiveSplit =
      { bounds := [⟨c.b, 0, BoundKind.UB⟩, ⟨c.f, 0, BoundKind.UB⟩], equations := [] } ∧
    c.getActiveSplit =
      (if c.auxVarInUse = true then
        { bounds := [⟨c.b, 0, BoundKind.LB⟩, ⟨c.aux, 0, BoundKind.UB⟩], equations := [] }
      else
        { bounds := [⟨c.b, 0, BoundKind.LB⟩],
          equations := [{ ty := EquationType.EQ, addends := [(1, c.b), (-1, c.f)],
                          scalar := 0 }] }) := by
  refine ⟨rfl, ?_⟩
  unfold ReluConstraint.getActiveSplit
  split_ifs <;> rfl

/-- C7: `getCaseSplits()` on a phase-fixed constraint raises the
requested-case-splits-from-fixed-constraint usage error, and
`getCaseSplit( phase )` raises the nonexistent-case-split usage error
for every phase other than Active and Inactive. -/
theorem relu_case_split_errors (c : ReluConstraint) (p : PhaseStatus)
    (hfix : c.phaseStatus ≠ PHASE_NOT_FIXED)
    (hp : p ≠ RELU_PHASE_ACTIVE ∧ p ≠ RELU_PHASE_INACTIVE) :
    c.getCaseSplits = .error .REQUESTED_CASE_SPLITS_FROM_FIXED_CONSTRAINT ∧
    c.getCaseSplit p = .error .REQUESTED_NONEXISTENT_CASE_SPLIT := by
  constructor
  · unfold ReluConstraint.getCaseSplits
    rw [if_pos hfix]
  · unfold ReluConstraint.getCaseSplit
    rw [if_neg hp.2, if_neg hp.1]

/-- Witness for C7: a phase-fixed concrete constraint and the
`PHASE_NOT_FIXED` request. -/
theorem relu_case_split_errors_witness :
    (reluExample.setPhaseStatus RELU_PHASE_ACTIVE).getCaseSplits =
        .error .REQUESTED_CASE_SPLITS_FROM_FIXED_CONSTRAINT ∧
      (reluExample.setPhaseStatus RELU_PHASE_ACTIVE).getCaseSplit PHASE_NOT_FIXED =
        .error .REQUESTED_NONEXISTENT_CASE_SPLIT :=
  relu_case_split_errors (reluExample.setPhaseStatus RELU_PHASE_ACTIVE) PHASE_NOT_FIXED
    (by decide) ⟨by decide, by decide⟩

/-- C5: on a constraint whose phase is not fixed, `getAllCases()` is
exactly the spec-side ordering (direction hint first, else sign of the
current `f` assignment, else Inactive before Active), `getCaseSplits()`
returns the corresponding splits in the same order, and that order is
always a permutation of {Active, Inactive}. -/
theorem relu_case_split_ordering (c : ReluConstraint)
    (hnf : c.phaseStatus = PHASE_NOT_FIXED) :
    c.getAllCases = specSplitOrder c ∧
    c.getCaseSplits = .ok ((specSplitOrder c).map fun p =>
      if p = RELU_PHASE_ACTIVE then c.getActiveSplit else c.getInactiveSplit) ∧
    (specSplitOrder c = [RELU_PHASE_ACTIVE, RELU_PHASE_INACTIVE] ∨
     specSplitOrder c = [RELU_PHASE_INACTIVE, RELU_PHASE_ACTIVE]) := by
  unfold ReluConstraint.getAllCases ReluConstraint.getCaseSplits specSplitOrder
  have hnf' : ¬ c.phaseStatus ≠ PHASE_NOT_FIXED := by simp [hnf]
  rcases hd : c.direction
  · rcases ha : c.assignment c.f with _ | fv
    · simp [hd, hnf', ha]
    · by_cases hfv : 0 < fv <;> simp [hd, hnf', ha, hfv]
  · simp [hd, hnf']
  · simp [hd, hnf']

/-- Witness for C5: a concrete constraint with no direction hint and no
`f` assignment orders Inactive before Active. -/
theorem relu_case_split_ordering_witness :
    reluExample.getAllCases = specSplitOrder reluExample ∧
    reluExample.getCaseSplits = .ok ((specSplitOrder reluExample).map fun p =>
      if p = RELU_PHASE_ACTIVE then reluExample.getActiveSplit
      else reluExample.getInactiveSplit) ∧
    (specSplitOrder reluExample = [RELU_PHASE_ACTIVE, RELU_PHASE_INACTIVE] ∨
     specSplitOrder reluExample = [RELU_PHASE_INACTIVE, RELU_PHASE_ACTIVE]) :=
  relu_case_split_ordering reluExample rfl

/-- The example constraint with the assignment `b = 2`, `f = 2`. -/
def reluAssigned : ReluConstraint :=
  { reluExample with assignment := fun x => if x ≤ 1 then some 2 else none }

/-- Normal form of `satisfied()` when both assignments exist. -/
theorem satisfied_some (c : ReluConstraint) (tol bValue fValue : ℚ)
    (hb : c.assignment c.b = some bValue) (hf : c.assignment c.f = some fValue) :
    c.satisfied tol =
      (if fValue < 0 then .ok false
       else if 0 < fValue then .ok (decide (|bValue - fValue| ≤ tol))
       else .ok (decide (¬ 0 < bValue))) := by
  unfold ReluConstraint.satisfied
  rw [hb, hf]

/-- C2: `satisfied()` errors when `b` or `f` lacks an assignment;
otherwise it returns false when `f < 0`, returns `b = f` within the
configured tolerance when `f > 0`, and returns `b ≤ 0` when `f = 0`;
at zero tolerance this decides exactly `f = max(b, 0)`. -/
theorem relu_satisfied_cases (c : ReluConstraint) (tol : ℚ) :
    ((c.assignment c.b = none ∨ c.assignment c.f = none) →
      c.satisfied tol = .error .PARTICIPATING_VARIABLE_MISSING_ASSIGNMENT) ∧
    (∀ bValue fValue, c.assignment c.b = some bValue → c.assignment c.f = some fValue →
      (fValue < 0 → c.satisfied tol = .ok false) ∧
      (0 < fValue → c.satisfied tol = .ok (decide (|bValue - fValue| ≤ tol))) ∧
      (fValue = 0 → c.satisfied tol = .ok (decide (bValue ≤ 0))) ∧
      (c.satisfied 0 = .ok true ↔ fValue = max bValue 0)) := by
  constructor
  · intro h
    unfold ReluConstraint.satisfied
    rcases h with h | h
    · rw [h]
    · rw [h]
      rcases c.assignment c.b <;> rfl
  · intro bValue fValue hb hf
    rw [satisfied_some c tol bValue fValue hb hf,
      satisfied_some c 0 bValue fValue hb hf]
    refine ⟨?_, ?_, ?_, ?_⟩
    · intro hneg
      rw [if_pos hneg]
    · intro hpos
      rw [if_neg (by linarith), if_pos hpos]
    · intro hz
      subst hz
      norm_num [not_lt]
    · rcases lt_trichotomy fValue 0 with h | h | h
      · rw [if_pos h]
        refine iff_of_false (by simp) ?_
        intro hm
        have h0 : (0 : ℚ) ≤ max bValue 0 := le_max_right _ _
        rw [← hm] at h0
        linarith
      · subst h
        rw [if_neg (by norm_num), if_neg (by norm_num)]
        simp only [Except.ok.injEq, decide_eq_true_eq, not_lt]
        constructor
        · intro hb0
          rw [max_eq_right hb0]
        · intro hm
          rcases le_or_lt bValue 0 with hb0 | hb0
          · exact hb0
          · rw [max_eq_left (le_of_lt hb0)] at hm
            exact absurd hm (ne_of_lt hb0)
      · rw [if_neg (by linarith), if_pos h]
        simp only [Except.ok.injEq, decide_eq_true_eq, abs_nonpos_iff, sub_eq_zero]
        constructor
        · intro hbf
          rw [← hbf, max_eq_left (by linarith)]
        · intro hm
          rcases le_or_lt bValue 0 with hb0 | hb0
          · rw [max_eq_right hb0] at hm
            exact absurd hm (ne_of_gt h)
          · rw [max_eq_left (le_of_lt hb0)] at hm
            exact hm.symm

/-- Witness for C2: with `b = 2`, `f = 2` assigned and zero tolerance,
`satisfied()` evaluates the positive-`f` equality test. -/
theorem relu_satisfied_cases_witness :
    reluAssigned.satisfied 0 = .ok (decide (|(2 : ℚ) - 2| ≤ 0)) :=
  ((relu_satisfied_cases reluAssigned 0).2 2 2 rfl rfl).2.1 (by norm_num)

/-- C4 (defect evidence): in standalone mode the phase-fixation check
runs on every strictly tighter bound even after the phase is fixed:
from the example constraint, notifying a lower bound of `0` on `b`
fixes the phase Active, and a subsequent lower bound of `1` on `aux`
overwrites the terminal phase to Inactive. -/
theorem relu_phase_overwrite_defect :
    (reluExample.notifyLowerBound 0 0).phaseStatus = RELU_PHASE_ACTIVE ∧
    ((reluExample.notifyLowerBound 0 0).notifyLowerBound 2 1).phaseStatus =
      RELU_PHASE_INACTIVE := by
  constructor <;> rfl

/-- C3 counterexample: with proof production disabled, tightening `f`'s
upper bound to `-1` (which fixes the phase Inactive within the same
call) does not signal infeasibility: the call returns normally and the
impossible bound is forwarded to the bound manager as an upper bound on
`b`. -/
theorem relu_infeasibility_needs_proofs_cex :
    reluExample.notifyUpperBoundBM false 1 (-1) =
      .ok (reluExample.checkIfUpperBoundUpdateFixesPhase 1 (-1),
        [.tightenUB 0 (-1) false]) ∧
    (reluExample.checkIfUpperBoundUpdateFixesPhase 1 (-1)).phaseStatus =
      RELU_PHASE_INACTIVE := by
  constructor <;> rfl

/-- C3 (amended): when proof production is enabled, tightening `f`'s
upper bound to a negative value on an active, not-yet-fixed constraint
(the phase becomes Inactive during the same notification) signals the
distinguished infeasibility outcome and stores nothing; with proof
production disabled, the same notification returns normally and passes
the bound to the bound manager instead. -/
theorem relu_infeasibility_signal (c : ReluConstraint) (bound : ℚ)
    (hnf : c.phaseStatus = PHASE_NOT_FIXED) (hact : c.constraintActive = true)
    (hneg : bound < 0) :
    c.notifyUpperBoundBM true c.f bound = .error .thrown ∧
    c.notifyUpperBoundBM false c.f bound =
      .ok (c.checkIfUpperBoundUpdateFixesPhase c.f bound,
        [.tightenUB c.b bound false]) := by
  have hfix : c.phaseFixed = false := by
    simp [ReluConstraint.phaseFixed, hnf]
  have hph : (c.checkIfUpperBoundUpdateFixesPhase c.f bound).phaseStatus =
      RELU_PHASE_INACTIVE := by
    rw [upper_check_phase, if_neg, if_pos]
    · exact ⟨Or.inl rfl, not_lt.mpr (le_of_lt hneg)⟩
    · rintro ⟨_, _, h0⟩
      exact absurd h0 (ne_of_lt hneg)
  have hca := (upper_check_frame c c.f bound).2.2.2.2
  have hnz : ¬ bound = 0 := ne_of_lt hneg
  constructor
  · simp [ReluConstraint.notifyUpperBoundBM, hfix, hca, hact, hph, hneg, hnz]
  · simp [ReluConstraint.notifyUpperBoundBM, hfix, hca, hact, hph, hneg, hnz]

/-- Witness for C3's amended theorem at the example constraint with
bound `-1`. -/
theorem relu_infeasibility_signal_witness :
    reluExample.notifyUpperBoundBM true 1 (-1) = .error .thrown ∧
    reluExample.notifyUpperBoundBM false 1 (-1) =
      .ok (reluExample.checkIfUpperBoundUpdateFixesPhase 1 (-1),
        [.tightenUB 0 (-1) false]) :=
  relu_infeasibility_signal reluExample (-1) rfl rfl (by norm_num)

/-- C8: with linearly independent `b`, `f` the smart fixes are exactly
the possible fixes.  With dependency (exactly one of `b`, `f` basic,
nonzero coefficient), every emitted fix, applied through the tableau
coefficient, either makes the new `b` equal the new `f` (the active
repair) or makes the new `f` zero with the new `b` non-positive (the
inactive repair); and when the relating coefficient of the active
repair is exactly 1 that repair is skipped, so every emitted fix is an
inactive repair. -/
theorem relu_smart_fixes (c : ReluConstraint) (bValue fValue : ℚ)
    (t : TableauDependency) (hbf : c.b ≠ c.f) :
    (t.linearlyDependent = false →
      c.getSmartFixes bValue fValue t = c.getPossibleFixes bValue fValue) ∧
    (t.linearlyDependent = true → t.bIsBasic = !t.fIsBasic →
      ¬ t.bDeltaToFDelta = 0 →
      ∀ fix ∈ c.getSmartFixes bValue fValue t,
        (c.applySmartFix bValue fValue t fix).1 =
            (c.applySmartFix bValue fValue t fix).2 ∨
          ((c.applySmartFix bValue fValue t fix).2 = 0 ∧
            (c.applySmartFix bValue fValue t fix).1 ≤ 0)) ∧
    (t.linearlyDependent = true → t.bIsBasic = !t.fIsBasic →
      ¬ t.bDeltaToFDelta = 0 →
      ((t.bIsBasic = false ∧ t.bDeltaToFDelta = 1) ∨
        (t.bIsBasic = true ∧ t.fDeltaToBDelta = 1)) →
      ∀ fix ∈ c.getSmartFixes bValue fValue t,
        (c.applySmartFix bValue fValue t fix).2 = 0 ∧
          (c.applySmartFix bValue fValue t fix).1 ≤ 0) := by
  have hfb : ¬ c.f = c.b := fun h => hbf h.symm
  refine ⟨?_, ?_, ?_⟩
  · intro h
    unfold ReluConstraint.getSmartFixes
    rw [if_pos h]
  · intro hdep hbasic hk fix hfix
    unfold ReluConstraint.getSmartFixes at hfix
    rw [if_neg (by simp [hdep])] at hfix
    rcases List.mem_append.mp hfix with hmem | hmem
    · cases hB : t.bIsBasic
      · simp only [hB, if_pos rfl, ite_true] at hmem
        split_ifs at hmem with hk1
        · simp at hmem
        · rw [List.mem_singleton] at hmem
          subst hmem
          left
          simp only [ReluConstraint.applySmartFix, if_pos rfl]
          have hk1' : t.bDeltaToFDelta - 1 ≠ 0 := sub_ne_zero.mpr hk1
          field_simp
          ring
      · simp only [hB, Bool.true_eq_false, if_false, ite_false] at hmem
        split_ifs at hmem with hk1
        · simp at hmem
        · rw [List.mem_singleton] at hmem
          subst hmem
          left
          simp only [ReluConstraint.applySmartFix, if_neg hfb]
          have hk1' : t.fDeltaToBDelta - 1 ≠ 0 := sub_ne_zero.mpr hk1
          field_simp
          ring
    · cases hF : t.fIsBasic
      · simp only [hF, if_pos rfl, ite_true] at hmem
        split_ifs at hmem with hg
        · rw [List.mem_singleton] at hmem
          subst hmem
          right
          constructor
          · simp [ReluConstraint.applySmartFix, hfb]
          · simp only [ReluConstraint.applySmartFix, if_neg hfb]
            simpa using hg
        · simp at hmem
      · simp only [hF, Bool.true_eq_false, if_false, ite_false] at hmem
        split_ifs at hmem with hg
        · rw [List.mem_singleton] at hmem
          subst hmem
          right
          constructor
          · simp only [ReluConstraint.applySmartFix, if_pos rfl]
            have hk' : t.bDeltaToFDelta ≠ 0 := hk
            field_simp
            rw [div_neg, mul_comm t.bDeltaToFDelta fValue, mul_div_assoc, div_self hk',
              mul_one, add_neg_cancel]
          · simp only [ReluConstraint.applySmartFix, if_pos rfl]
            exact hg
        · simp at hmem
  · intro hdep hbasic hk hone fix hfix
    unfold ReluConstraint.getSmartFixes at hfix
    rw [if_neg (by simp [hdep])] at hfix
    rcases hone with ⟨hB, hk1⟩ | ⟨hB, hk1⟩
    · have hF : t.fIsBasic = true := by
        rw [hB] at hbasic
        simpa using hbasic.symm
      simp only [hB, hF, hk1, if_pos rfl, ite_true, not_true, if_false, ite_false,
        Bool.true_eq_false, List.nil_append] at hfix
      split_ifs at hfix with hg
      · rw [List.mem_singleton] at hfix
        subst hfix
        constructor
        · simp [ReluConstraint.applySmartFix, hk1]
          ring
        · simpa [ReluConstraint.applySmartFix] using hg
      · simp at hfix
    · have hF : t.fIsBasic = false := by
        rw [hB] at hbasic
        simpa using hbasic.symm
      simp only [hB, hF, hk1, if_pos rfl, ite_true, not_true, if_false, ite_false,
        Bool.true_eq_false, List.nil_append] at hfix
      split_ifs at hfix with hg
      · rw [List.mem_singleton] at hfix
        subst hfix
        constructor
        · simp [ReluConstraint.applySmartFix, hfb]
        · simp only [ReluConstraint.applySmartFix, if_neg hfb]
          rw [hk1]
          linarith [hg]
      · simp at hfix

/-- A concrete tableau answer: `b` and `f` dependent, `b` non-basic
with `bDeltaToFDelta = -2`. -/
def tdepExample : TableauDependency :=
  ⟨true, -2, -(1/2), false, true⟩

/-- Witness for C8 at a concrete dependent configuration
(`b = 0`, `f = 6`): the emitted active repair `b := 2` repairs the
violation once applied through the tableau coefficient. -/
theorem relu_smart_fixes_witness :
    (reluExample.applySmartFix 0 6 tdepExample ⟨0, 2⟩).1 =
        (reluExample.applySmartFix 0 6 tdepExample ⟨0, 2⟩).2 ∨
      ((reluExample.applySmartFix 0 6 tdepExample ⟨0, 2⟩).2 = 0 ∧
        (reluExample.applySmartFix 0 6 tdepExample ⟨0, 2⟩).1 ≤ 0) :=
  (relu_smart_fixes reluExample 0 6 tdepExample (by decide)).2.1 rfl rfl (by decide)
    ⟨0, 2⟩ (by norm_num [ReluConstraint.getSmartFixes, tdepExample, reluExample])

/-- Every character printed for a decimal digit decodes back to the
digit and differs from the comma separator. -/
theorem digit_char_spec (d : ℕ) (hd : d < 10) :
    (Char.ofNat (48 + d)).toNat - 48 = d ∧ Char.ofNat (48 + d) ≠ ',' := by
  interval_cases d <;> exact ⟨by decide, by decide⟩

/-- `natToChars` never contains the comma separator. -/
theorem natToChars_ne_comma (n : ℕ) : ∀ ch ∈ natToChars n, ch ≠ ',' := by
  intro ch hch
  unfold natToChars at hch
  split_ifs at hch with h
  · rw [List.mem_singleton] at hch
    subst hch
    decide
  · rcases List.mem_map.mp hch with ⟨d, hd, rfl⟩
    exact (digit_char_spec d (Nat.digits_lt_base (by norm_num)
      (List.mem_reverse.mp hd))).2

/-- Folding the decimal accumulator over a most-significant-first digit
list recovers `Nat.ofDigits`. -/
theorem foldl_reverse_ofDigits (l : List ℕ) :
    l.reverse.foldl (fun a d => a * 10 + d) 0 = Nat.ofDigits 10 l := by
  induction l with
  | nil => rfl
  | cons d t ih =>
    rw [List.reverse_cons, List.foldl_append]
    simp only [List.foldl_cons, List.foldl_nil]
    rw [ih, Nat.ofDigits_cons]
    omega

/-- `atoi` decodes the decimal rendering of every natural number. -/
theorem atoi_natToChars (n : ℕ) : atoi (natToChars n) = n := by
  unfold natToChars atoi
  split_ifs with h
  · subst h
    rfl
  · have hfold : ∀ (l : List ℕ), (∀ d ∈ l, d < 10) → ∀ acc : ℕ,
        (l.map fun d => Char.ofNat (48 + d)).foldl
          (fun acc ch => acc * 10 + (ch.toNat - 48)) acc =
        l.foldl (fun a d => a * 10 + d) acc := by
      intro l
      induction l with
      | nil => intro _ acc; rfl
      | cons d t ih =>
        intro hmem acc
        simp only [List.map_cons, List.foldl_cons]
        rw [(digit_char_spec d (hmem d (by simp))).1]
        exact ih (fun x hx => hmem x (by simp [hx])) _
    rw [hfold _ (fun d hd => Nat.digits_lt_base (by norm_num) (List.mem_reverse.mp hd)),
      foldl_reverse_ofDigits, Nat.ofDigits_digits]

/-- `tokenize` of a comma-free character list is that single token. -/
theorem tokenize_no_comma (A : List Char) (h : ∀ ch ∈ A, ch ≠ ',') :
    tokenize A = [A] := by
  induction A with
  | nil => rfl
  | cons ch rest ih =>
    simp only [tokenize]
    rw [if_neg (h ch (by simp)), ih (fun x hx => h x (by simp [hx]))]

/-- `tokenize` splits off a leading comma-free token at the first
comma. -/
theorem tokenize_append (A B : List Char) (h : ∀ ch ∈ A, ch ≠ ',') :
    tokenize (A ++ ',' :: B) = A :: tokenize B := by
  induction A with
  | nil =>
    simp [tokenize]
  | cons ch rest ih =>
    simp only [List.cons_append, tokenize, List.append_eq]
    rw [if_neg (h ch (by simp)), ih (fun x hx => h x (by simp [hx]))]

/-- `parseRelu` on a string carrying the `relu` tag: the tag check
passes, the tag and separator are dropped, and the rest is tokenized. -/
theorem parseRelu_tag (X : List Char) :
    parseRelu ('r' :: 'e' :: 'l' :: 'u' :: ',' :: X) =
      (match tokenize X with
       | [fs, bs] => some (atoi fs, atoi bs, none)
       | [fs, bs, auxs] => some (atoi fs, atoi bs, some (atoi auxs))
       | _ => none) := by
  rfl

/-- C9: serialization round-trip.  Serializing any constraint and
parsing the result reproduces `f`, `b`, the aux-presence flag and, when
present, `aux`. -/
theorem relu_serialization_roundtrip (c : ReluConstraint) :
    parseRelu c.serializeToString =
      some (c.f, c.b, if c.auxVarInUse = true then some c.aux else none) := by
  unfold ReluConstraint.serializeToString
  have hf := natToChars_ne_comma c.f
  have hb := natToChars_ne_comma c.b
  by_cases hu : c.auxVarInUse = true
  · rw [if_pos hu, if_pos hu]
    have hshape :
        ['r', 'e', 'l', 'u', ','] ++ natToChars c.f ++ [','] ++ natToChars c.b ++ [','] ++
            natToChars c.aux =
          'r' :: 'e' :: 'l' :: 'u' :: ',' ::
            (natToChars c.f ++ ',' :: (natToChars c.b ++ ',' :: natToChars c.aux)) := by
      simp
    rw [hshape, parseRelu_tag, tokenize_append _ _ hf, tokenize_append _ _ hb,
      tokenize_no_comma _ (natToChars_ne_comma c.aux)]
    dsimp only
    rw [atoi_natToChars, atoi_natToChars, atoi_natToChars]
  · rw [if_neg hu, if_neg hu]
    have hshape :
        ['r', 'e', 'l', 'u', ','] ++ natToChars c.f ++ [','] ++ natToChars c.b =
          'r' :: 'e' :: 'l' :: 'u' :: ',' :: (natToChars c.f ++ ',' :: natToChars c.b) := by
      simp
    rw [hshape, parseRelu_tag, tokenize_append _ _ hf, tokenize_no_comma _ hb]
    dsimp only
    rw [atoi_natToChars, atoi_natToChars]
